import Mathlib

/-!
Verification of the Filemarks bookmark state engine.

The definitions below are a shallow embedding of the TypeScript sources:
`src/bookmarkStore.ts` (tree model, toggle/add/remove operations, sticky
line tracking, file-system event handling) and `src/storage.ts` (durable
document loading with corruption recovery).

Modelling decisions, each forced by the host language:
- a Bookmark's `numbers` field is a JavaScript object with small integer
  keys (`Record<number, number>`); such objects enumerate their entries in
  ascending numeric key order, so it is embedded as an association list
  kept sorted by key (`setNum` inserts at the sorted position, matching
  property assignment; `eraseNum` removes the key, matching `delete`);
- `uuidv4()` is a fresh-identifier supply, embedded as a `Nat` counter
  threaded through the store;
- `createdAt`/`updatedAt` timestamps are wall-clock metadata read by no
  operation embedded here and are omitted;
- `save()` schedules a debounced persistence write and fires the
  `onDidChangeBookmarks` event; both effects are embedded as counters.
-/

namespace Filemarks

/-! ## The numbers map of a bookmark -/

/-- `Record<number, number>`: association list from mark number to line,
sorted ascending by key (JavaScript integer-key enumeration order). -/
abbrev Numbers := List (Nat × Nat)

/-- `bookmark.numbers[num]` — property read. -/
def lookupNum : Numbers → Nat → Option Nat
  | [], _ => none
  | (k, v) :: rest, n => if k = n then some v else lookupNum rest n

/-- `bookmark.numbers[num] = line` — property write: updates the key in
place or inserts it at its ascending-key position. -/
def setNum : Numbers → Nat → Nat → Numbers
  | [], n, l => [(n, l)]
  | (k, v) :: rest, n, l =>
      if k = n then (n, l) :: rest
      else if n < k then (n, l) :: (k, v) :: rest
      else (k, v) :: setNum rest n l

/-- `delete bookmark.numbers[num]` — removes the key. -/
def eraseNum (ns : Numbers) (n : Nat) : Numbers :=
  ns.filter (fun p => p.1 != n)

/-- `Object.entries(bookmark.numbers).find(([, l]) => l === line)` —
first entry (in ascending key order) whose line equals `line`. -/
def findNumAtLine (ns : Numbers) (line : Nat) : Option (Nat × Nat) :=
  ns.find? (fun p => p.2 == line)

/-- The keys of a numbers map. -/
def numKeys (ns : Numbers) : List Nat := ns.map Prod.fst

/-- Ascending-key well-formedness of a JavaScript integer-keyed object. -/
def keysSorted (ns : Numbers) : Prop :=
  List.Pairwise (fun p q : Nat × Nat => p.1 < q.1) ns

instance (ns : Numbers) : Decidable (keysSorted ns) := by
  unfold keysSorted; infer_instance

/-! ## The tree model (`types.ts`) -/

/-- `TreeNode = FolderNode | BookmarkNode`. -/
inductive TreeNode where
  | folder (id : Nat) (name : String) (children : List TreeNode)
  | bookmark (id : Nat) (filePath : String) (numbers : Numbers)
deriving Repr

/-- `node.id`. -/
def nodeId : TreeNode → Nat
  | .folder i _ _ => i
  | .bookmark i _ _ => i

mutual
/-- `BookmarkStore.findBookmarkByFilePath` on one node: first bookmark with
the given path in depth-first order. -/
def findBN (fp : String) : TreeNode → Option (Nat × Numbers)
  | .bookmark i p ns => if p = fp then some (i, ns) else none
  | .folder _ _ cs => findBL fp cs

/-- `BookmarkStore.findBookmarkByFilePath`: first bookmark with the given
path in depth-first order (a folder's children before later siblings). -/
def findBL (fp : String) : List TreeNode → Option (Nat × Numbers)
  | [] => none
  | n :: rest =>
      match findBN fp n with
      | some r => some r
      | none => findBL fp rest
end

mutual
/-- Whether the id occurs anywhere in a subtree. -/
def hasIdN (id : Nat) : TreeNode → Bool
  | .folder i _ cs => (i == id) || hasIdL id cs
  | .bookmark i _ _ => i == id

/-- Whether the id occurs anywhere in a forest. -/
def hasIdL (id : Nat) : List TreeNode → Bool
  | [] => false
  | n :: rest => hasIdN id n || hasIdL id rest
end

/-- Whether `removeFromTree` would descend into this node's children. -/
def descendsInto (id : Nat) : TreeNode → Bool
  | .folder _ _ cs => hasIdL id cs
  | .bookmark _ _ _ => false

mutual
/-- Removal inside one node: recurses into a folder's children. -/
def removeIdN (id : Nat) : TreeNode → TreeNode
  | .folder i nm cs => .folder i nm (removeIdL id cs)
  | .bookmark i p ns => .bookmark i p ns

/-- `BookmarkStore.removeBookmarkNode` and `BookmarkStore.removeNode`
(their bodies are identical): splice out the first node with the given id
in depth-first order. -/
def removeIdL (id : Nat) : List TreeNode → List TreeNode
  | [] => []
  | n :: rest =>
      if nodeId n = id then rest
      else if descendsInto id n then removeIdN id n :: rest
      else n :: removeIdL id rest
end

mutual
/-- `removeAndGetNode` search inside one node's children. -/
def removeGetN (id : Nat) : TreeNode → Option TreeNode × TreeNode
  | .folder i nm cs => ((removeGetL id cs).1, .folder i nm (removeGetL id cs).2)
  | .bookmark i fp ns => (none, .bookmark i fp ns)

/-- `BookmarkStore.removeAndGetNode`: splice out and return the first node
with the given id in depth-first order. -/
def removeGetL (id : Nat) : List TreeNode → Option TreeNode × List TreeNode
  | [] => (none, [])
  | n :: rest =>
      if nodeId n = id then (some n, rest)
      else
        match (removeGetN id n).1 with
        | some found => (some found, (removeGetN id n).2 :: rest)
        | none => ((removeGetL id rest).1, n :: (removeGetL id rest).2)
end

mutual
/-- `findFolderById` on one node. -/
def findFolderN (id : Nat) : TreeNode → Option (Nat × String × List TreeNode)
  | .folder i nm cs => if i = id then some (i, nm, cs) else findFolderL id cs
  | .bookmark _ _ _ => none

/-- `BookmarkStore.findFolderById`: first folder with the given id in
depth-first order; returns its `(id, name, children)`. -/
def findFolderL (id : Nat) : List TreeNode → Option (Nat × String × List TreeNode)
  | [] => none
  | n :: rest =>
      match findFolderN id n with
      | some f => some f
      | none => findFolderL id rest
end

mutual
/-- Append a child to this node when it is (or contains) the folder with
the given id. -/
def pushChildN (id : Nat) (child : TreeNode) : TreeNode → TreeNode
  | .folder i nm cs =>
      if i = id then .folder i nm (cs ++ [child])
      else .folder i nm (pushChildL id child cs)
  | .bookmark i p ns => .bookmark i p ns

/-- `targetFolder.children.push(node)` on the folder located by
`findFolderById`: appends a child to the first folder with the given id. -/
def pushChildL (id : Nat) (child : TreeNode) : List TreeNode → List TreeNode
  | [] => []
  | n :: rest =>
      if (findFolderN id n).isSome then pushChildN id child n :: rest
      else n :: pushChildL id child rest
end

mutual
/-- Numbers replacement inside one node. -/
def replaceNumbersN (fp : String) (ns' : Numbers) : TreeNode → TreeNode
  | .bookmark i p ns => if p = fp then .bookmark i p ns' else .bookmark i p ns
  | .folder i nm cs => .folder i nm (replaceNumbersL fp ns' cs)

/-- In-place mutation of the `numbers` of the bookmark located by
`findBookmarkByFilePath`: replaces the numbers of the first bookmark with
the given path. -/
def replaceNumbersL (fp : String) (ns' : Numbers) : List TreeNode → List TreeNode
  | [] => []
  | n :: rest =>
      if (findBN fp n).isSome then replaceNumbersN fp ns' n :: rest
      else n :: replaceNumbersL fp ns' rest
end

mutual
/-- Every bookmark in the subtree has a non-empty numbers map. -/
def noEmptyN : TreeNode → Bool
  | .bookmark _ _ ns => !ns.isEmpty
  | .folder _ _ cs => noEmptyL cs

/-- Every bookmark in the forest has a non-empty numbers map. -/
def noEmptyL : List TreeNode → Bool
  | [] => true
  | n :: rest => noEmptyN n && noEmptyL rest
end

mutual
/-- All node ids of a subtree, in depth-first order. -/
def nodeIdsN : TreeNode → List Nat
  | .folder i _ cs => i :: nodeIdsL cs
  | .bookmark i _ _ => [i]

/-- All node ids of a forest, in depth-first order. -/
def nodeIdsL : List TreeNode → List Nat
  | [] => []
  | n :: rest => nodeIdsN n ++ nodeIdsL rest
end

mutual
/-- All bookmark file paths of a subtree, in depth-first order. -/
def pathsN : TreeNode → List String
  | .folder _ _ cs => pathsL cs
  | .bookmark _ p _ => [p]

/-- All bookmark file paths of a forest, in depth-first order. -/
def pathsL : List TreeNode → List String
  | [] => []
  | n :: rest => pathsN n ++ pathsL rest
end

/-! ## The store (`bookmarkStore.ts`) -/

/-- `BookmarkStore` state: the `FilemarkState` (`version`, `items`), the
fresh-id supply standing in for `uuidv4()`, and counters for the two
effects of `BookmarkStore.save` (a call to `storage.save` and a firing of
`onDidChangeBookmarks`). -/
structure Store where
  version : String
  items : List TreeNode
  nextId : Nat
  saveCount : Nat
  eventCount : Nat
deriving Repr

/-- `BookmarkStore.save`: `this.storage.save(this.state)` followed by
`this._onDidChangeBookmarks.fire()`. -/
def fireSave (s : Store) : Store :=
  { s with saveCount := s.saveCount + 1, eventCount := s.eventCount + 1 }

/-- The store right after construction: `{ version: '1.0', items: [] }`. -/
def emptyStore : Store := ⟨"1.0", [], 0, 0, 0⟩

/-- A store whose tree is a single root bookmark. -/
def singleBookmarkStore (id : Nat) (fp : String) (ns : Numbers) : Store :=
  ⟨"1.0", [TreeNode.bookmark id fp ns], id + 1, 0, 0⟩

/-- The mark set of a file: the `numbers` of its bookmark node, if any. -/
def marksOf (s : Store) (fp : String) : Option Numbers :=
  (findBL fp s.items).map (fun r => r.2)

/-- Lookup of one number inside an optional mark set. -/
def optLookup (o : Option Numbers) (k : Nat) : Option Nat :=
  o.bind (fun ns => lookupNum ns k)

/-- `BookmarkStore.toggleBookmark(filePath, num, line)`. -/
def toggleBookmark (fp : String) (num line : Nat) (s : Store) : Store :=
  match findBL fp s.items with
  | none =>
      fireSave { s with
        items := s.items ++ [TreeNode.bookmark s.nextId fp [(num, line)]],
        nextId := s.nextId + 1 }
  | some (id, ns) =>
      if lookupNum ns num = some line then
        let ns' := eraseNum ns num
        if ns'.isEmpty then fireSave { s with items := removeIdL id s.items }
        else fireSave { s with items := replaceNumbersL fp ns' s.items }
      else
        let ns1 :=
          match findNumAtLine ns line with
          | some p => eraseNum ns p.1
          | none => ns
        fireSave { s with items := replaceNumbersL fp (setNum ns1 num line) s.items }

/-- `BookmarkStore.addBookmark(filePath, num, line)` (the spec's
`setMark`). -/
def addBookmark (fp : String) (num line : Nat) (s : Store) : Store :=
  match findBL fp s.items with
  | none =>
      fireSave { s with
        items := s.items ++ [TreeNode.bookmark s.nextId fp [(num, line)]],
        nextId := s.nextId + 1 }
  | some (_, ns) =>
      fireSave { s with items := replaceNumbersL fp (setNum ns num line) s.items }

/-- `BookmarkStore.removeBookmarkNumber(filePath, num)` (the spec's
`clearMark`). Returns without saving when no bookmark exists. -/
def removeBookmarkNumber (fp : String) (num : Nat) (s : Store) : Store :=
  match findBL fp s.items with
  | none => s
  | some (id, ns) =>
      let ns' := eraseNum ns num
      if ns'.isEmpty then fireSave { s with items := removeIdL id s.items }
      else fireSave { s with items := replaceNumbersL fp ns' s.items }

/-- `BookmarkStore.deleteBookmark(id)`: removes the node (if present) and
always saves. -/
def deleteBookmark (id : Nat) (s : Store) : Store :=
  fireSave { s with items := removeIdL id s.items }

/-- `BookmarkStore.deleteFolder(id)`: removes the node (if present) and
always saves (`removeNode` has the same body as `removeBookmarkNode`). -/
def deleteFolder (id : Nat) (s : Store) : Store :=
  fireSave { s with items := removeIdL id s.items }

/-- `BookmarkStore.createFolder(name, parentId?)`: the uuid is generated
up front; with a `parentId` the folder is pushed onto that folder's
children only when `findFolderById` finds it; without a `parentId` it is
pushed onto the root list. `save` runs in every case. -/
def createFolder (name : String) (parentId : Option Nat) (s : Store) : Store :=
  let folder := TreeNode.folder s.nextId name []
  match parentId with
  | some pid =>
      match findFolderL pid s.items with
      | some _ =>
          fireSave { s with items := pushChildL pid folder s.items, nextId := s.nextId + 1 }
      | none => fireSave { s with nextId := s.nextId + 1 }
  | none =>
      fireSave { s with items := s.items ++ [folder], nextId := s.nextId + 1 }

/-- `BookmarkStore.moveNode(nodeId, targetFolderId | null)`: detaches the
node first; the target folder is looked up in the tree that remains after
detachment, and the node goes to the root list when that lookup fails. -/
def moveNode (nodeId : Nat) (target : Option Nat) (s : Store) : Store :=
  match removeGetL nodeId s.items with
  | (none, _) => s
  | (some node, rest) =>
      match target with
      | none => fireSave { s with items := rest ++ [node] }
      | some tid =>
          match findFolderL tid rest with
          | some _ => fireSave { s with items := pushChildL tid node rest }
          | none => fireSave { s with items := rest ++ [node] }

/-! ## Sticky line tracking (`handleTextDocumentChange`) -/

/-- One entry of `event.contentChanges`: the start/end lines of the
replaced range and the number of newline characters in the inserted text
(`change.text.split('\n').length - 1`). -/
structure EditChange where
  startLine : Nat
  endLine : Nat
  insertedLines : Nat
deriving Repr, DecidableEq

/-- `lineDelta = change.text.split('\n').length - 1 - (endLine - startLine)`. -/
def lineDelta (c : EditChange) : Int :=
  (c.insertedLines : Int) - ((c.endLine : Int) - (c.startLine : Int))

/-- The fate of one `numbers` entry under one content change: entries past
the change start are shifted by `lineDelta` and dropped when the adjusted
line would be negative; entries at or before the change start are kept. -/
def adjustEntry (c : EditChange) (p : Nat × Nat) : Option (Nat × Nat) :=
  if c.startLine < p.2 then
    if (p.2 : Int) + lineDelta c < 0 then none
    else some (p.1, ((p.2 : Int) + lineDelta c).toNat)
  else some p

/-- The inner loop of `handleTextDocumentChange` for one content change:
a change with `lineDelta === 0` is skipped (`continue`); otherwise every
entry is adjusted by `adjustEntry`. -/
def adjustNumbers (c : EditChange) (ns : Numbers) : Numbers :=
  if lineDelta c = 0 then ns else ns.filterMap (adjustEntry c)

/-- Whether a content change sets `hasChanges` for the given numbers map:
some entry lies strictly past the change start and the delta is non-zero. -/
def changeTouches (c : EditChange) (ns : Numbers) : Bool :=
  lineDelta c != 0 && ns.any (fun p => decide (c.startLine < p.2))

/-- `BookmarkStore.handleTextDocumentChange`: bails out on an empty change
list or a file without a bookmark; otherwise folds every content change
over the bookmark's numbers (in-place mutation in the source) and saves
only when some entry was touched. The bookmark node is never removed here,
even when every entry is deleted. -/
def handleTextDocumentChange (fp : String) (changes : List EditChange) (s : Store) : Store :=
  if changes.isEmpty then s
  else
    match findBL fp s.items with
    | none => s
    | some (_, ns) =>
        let r := changes.foldl
          (fun (acc : Numbers × Bool) c => (adjustNumbers c acc.1, acc.2 || changeTouches c acc.1))
          (ns, false)
        let s' := { s with items := replaceNumbersL fp r.1 s.items }
        if r.2 then fireSave s' else s'

/-! ## File-system events (`setupFileWatchers`) -/

/-- File-system events delivered by the watcher. -/
inductive FsEvent where
  | fsDelete (path : String)
  | fsCreate (path : String)
deriving Repr, DecidableEq

/-- `BookmarkStore.handleFileDelete`: when a bookmark exists at the path it
is removed at once (`removeBookmarkNode` then `save`); no pending entry or
timer exists anywhere in the handler. -/
def handleFileDelete (fp : String) (s : Store) : Store :=
  match findBL fp s.items with
  | some (id, _) => fireSave { s with items := removeIdL id s.items }
  | none => s

/-- The watcher wiring: `onDidDelete` runs `handleFileDelete`;
`onDidCreate` runs `detectFileRename`, which always returns `null`, so a
create event never changes the store. -/
def handleFsEvent : FsEvent → Store → Store
  | .fsDelete p, s => handleFileDelete p s
  | .fsCreate _, s => s

/-! ## Durable storage (`storage.ts`) -/

/-- A parsed JSON value, as produced by `JSON.parse`. -/
inductive JVal where
  | null
  | jbool (b : Bool)
  | jnum (n : Int)
  | jstr (s : String)
  | jarr (xs : List JVal)
  | jobj (fields : List (String × JVal))
deriving Repr

/-- JavaScript property read `v[k]` on a parsed value: `none` stands for
`undefined` (primitives and arrays carry no such property). -/
def getField (v : JVal) (k : String) : Option JVal :=
  match v with
  | .jobj fs => (fs.find? (fun p => p.1 == k)).map (fun p => p.2)
  | _ => none

/-- JavaScript truthiness of a possibly-`undefined` value, as used by
`!parsed.version`. -/
def truthy : Option JVal → Bool
  | none => false
  | some .null => false
  | some (.jbool b) => b
  | some (.jnum n) => n != 0
  | some (.jstr s) => s != ""
  | some (.jarr _) => true
  | some (.jobj _) => true

/-- `Array.isArray(v)` for a possibly-`undefined` value. -/
def isArrayVal : Option JVal → Bool
  | some (.jarr _) => true
  | _ => false

/-- `!parsed.version || !Array.isArray(parsed.items)`, negated: the
structural validation applied by `StorageService.load`. -/
def docValid (v : JVal) : Bool :=
  truthy (getField v "version") && isArrayVal (getField v "items")

/-- What `load` returns, projected onto the two fields of the persisted
document (the source returns the parsed object cast to `FilemarkState`
without validating the elements of `items`). -/
structure LoadedState where
  version : JVal
  items : JVal
deriving Repr

/-- `StorageService.getDefaultState()`: `{ version: '1.0', items: [] }`. -/
def defaultState : LoadedState := ⟨.jstr "1.0", .jarr []⟩

/-- Side effects of one `load` call: backup copies written by
`createBackup`, error messages, and warning messages. -/
structure LoadEffects where
  backups : Nat
  errors : Nat
  warnings : Nat
deriving Repr, DecidableEq

/-- The outcome of reading and parsing the durable document: the file is
missing (`ENOENT`), the read itself fails, `JSON.parse` throws a
`SyntaxError`, or a value is parsed. -/
inductive ReadResult where
  | enoent
  | ioFailure
  | malformed
  | ok (v : JVal)
deriving Repr

/-- `StorageService.recoverOrDefault(data)`: for an object (arrays
included — `typeof` yields `'object'` for them) each field is kept when it
has the right type and coerced to its default otherwise; for any other
value the default state is returned. -/
def recoverOrDefault (v : JVal) : LoadedState :=
  match v with
  | .jobj _ | .jarr _ =>
      { version :=
          match getField v "version" with
          | some (.jstr s) => .jstr s
          | _ => .jstr "1.0",
        items :=
          match getField v "items" with
          | some (.jarr xs) => .jarr xs
          | _ => .jarr [] }
  | _ => defaultState

/-- `StorageService.load()`. A missing file returns the default state. A
`SyntaxError` from `JSON.parse` shows an error, writes one backup copy via
`createBackup`, and returns the default state. Any other read error shows
an error and returns the default state. A parsed `null` makes the
`parsed.version` property access throw, which the generic catch turns into
an error plus the default state. A parsed document failing `docValid`
shows a warning and goes through `recoverOrDefault`; a valid document is
returned as is. -/
def load : ReadResult → LoadedState × LoadEffects
  | .enoent => (defaultState, ⟨0, 0, 0⟩)
  | .ioFailure => (defaultState, ⟨0, 1, 0⟩)
  | .malformed => (defaultState, ⟨1, 1, 0⟩)
  | .ok .null => (defaultState, ⟨0, 1, 0⟩)
  | .ok v =>
      if docValid v then
        (⟨(getField v "version").getD .null, (getField v "items").getD .null⟩, ⟨0, 0, 0⟩)
      else (recoverOrDefault v, ⟨0, 0, 1⟩)

/-- Follows the spec's words for comparison with `recoverOrDefault`: a
missing or non-string `version` field is coerced to its default. -/
def specRepairVersion : Option JVal → JVal
  | some (.jstr s) => .jstr s
  | _ => .jstr "1.0"

/-- Follows the spec's words for comparison with `recoverOrDefault`: a
missing or non-array `items` field is coerced to its default. -/
def specRepairItems : Option JVal → JVal
  | some (.jarr xs) => .jarr xs
  | _ => .jarr []

/-! ## Lemmas about the numbers map -/

theorem lookupNum_setNum_self (ns : Numbers) (n l : Nat) :
    lookupNum (setNum ns n l) n = some l := by
  induction ns with
  | nil => simp [setNum, lookupNum]
  | cons p rest ih =>
      obtain ⟨k, v⟩ := p
      by_cases hk : k = n
      · simp [setNum, hk, lookupNum]
      · by_cases hlt : n < k
        · simp [setNum, hk, hlt, lookupNum]
        · simp [setNum, hk, hlt, lookupNum, ih]

theorem lookupNum_setNum_ne (ns : Numbers) (n l k : Nat) (h : k ≠ n) :
    lookupNum (setNum ns n l) k = lookupNum ns k := by
  have hnk : n ≠ k := Ne.symm h
  induction ns with
  | nil => simp [setNum, lookupNum, hnk]
  | cons p rest ih =>
      obtain ⟨k', v⟩ := p
      by_cases hk : k' = n
      · have hk'k : k' ≠ k := by rw [hk]; exact hnk
        simp [setNum, hk, lookupNum, hk'k, hnk]
      · by_cases hlt : n < k'
        · simp [setNum, hk, hlt, lookupNum, hnk]
        · simp only [setNum, if_neg hk, if_neg hlt, lookupNum]
          by_cases hkk : k' = k
          · simp [hkk]
          · simp [hkk, ih]

theorem eraseNum_setNum (ns : Numbers) (n l : Nat) :
    eraseNum (setNum ns n l) n = eraseNum ns n := by
  induction ns with
  | nil => simp [setNum, eraseNum]
  | cons p rest ih =>
      obtain ⟨k, v⟩ := p
      by_cases hk : k = n
      · subst hk
        simp [setNum, eraseNum]
      · by_cases hlt : n < k
        · simp [setNum, hk, hlt, eraseNum, List.filter]
        · simp only [setNum, if_neg hk, if_neg hlt]
          simp [eraseNum, List.filter_cons] at ih ⊢
          simp [ih]

theorem lookupNum_eq_none_iff (ns : Numbers) (n : Nat) :
    lookupNum ns n = none ↔ ∀ p ∈ ns, p.1 ≠ n := by
  induction ns with
  | nil => simp [lookupNum]
  | cons p rest ih =>
      obtain ⟨k, v⟩ := p
      by_cases hk : k = n
      · simp [lookupNum, hk]
      · simp [lookupNum, hk, ih]

theorem eraseNum_eq_self_of_lookup_none (ns : Numbers) (n : Nat)
    (h : lookupNum ns n = none) : eraseNum ns n = ns := by
  rw [lookupNum_eq_none_iff] at h
  unfold eraseNum
  rw [List.filter_eq_self]
  intro p hp
  simpa using h p hp

theorem lookupNum_eraseNum_self (ns : Numbers) (n : Nat) :
    lookupNum (eraseNum ns n) n = none := by
  rw [lookupNum_eq_none_iff]
  intro p hp
  have := List.of_mem_filter hp
  simpa using this

theorem lookupNum_eraseNum_ne (ns : Numbers) (n k : Nat) (h : k ≠ n) :
    lookupNum (eraseNum ns n) k = lookupNum ns k := by
  induction ns with
  | nil => rfl
  | cons p rest ih =>
      obtain ⟨k', v⟩ := p
      by_cases hk : k' = n
      · have h1 : eraseNum ((k', v) :: rest) n = eraseNum rest n := by
          simp [eraseNum, List.filter_cons, hk]
        have h2 : k' ≠ k := by rw [hk]; exact Ne.symm h
        rw [h1, ih]
        simp [lookupNum, h2]
      · have h1 : eraseNum ((k', v) :: rest) n = (k', v) :: eraseNum rest n := by
          simp [eraseNum, List.filter_cons, hk]
        rw [h1]
        by_cases hkk : k' = k
        · simp [lookupNum, hkk]
        · simp [lookupNum, hkk, ih]

theorem setNum_ne_nil (ns : Numbers) (n l : Nat) : setNum ns n l ≠ [] := by
  cases ns with
  | nil => simp [setNum]
  | cons p rest =>
      obtain ⟨k, v⟩ := p
      by_cases hk : k = n
      · simp [setNum, hk]
      · by_cases hlt : n < k
        · simp [setNum, hk, hlt]
        · simp [setNum, hk, hlt]

theorem mem_numKeys_of_lookup (ns : Numbers) (n l : Nat)
    (h : lookupNum ns n = some l) : n ∈ numKeys ns := by
  induction ns with
  | nil => simp [lookupNum] at h
  | cons p rest ih =>
      obtain ⟨k, v⟩ := p
      by_cases hk : k = n
      · simp [numKeys, hk]
      · simp only [lookupNum, if_neg hk] at h
        simp [numKeys] at ih ⊢
        exact Or.inr (ih h)

theorem setNum_cons_of_lt (ms : Numbers) (n l : Nat)
    (h : ∀ p ∈ ms, n < p.1) : setNum ms n l = (n, l) :: ms := by
  cases ms with
  | nil => rfl
  | cons q rest =>
      obtain ⟨k, v⟩ := q
      have hq : n < k := h (k, v) (by simp)
      simp [setNum, Nat.ne_of_gt hq, hq]

theorem eraseNum_eq_self_of_gt (ms : Numbers) (n : Nat)
    (h : ∀ p ∈ ms, n < p.1) : eraseNum ms n = ms := by
  apply eraseNum_eq_self_of_lookup_none
  rw [lookupNum_eq_none_iff]
  intro p hp
  exact Nat.ne_of_gt (h p hp)

theorem setNum_eraseNum_of_lookup (ns : Numbers) (n l : Nat)
    (hs : keysSorted ns) (h : lookupNum ns n = some l) :
    setNum (eraseNum ns n) n l = ns := by
  induction ns with
  | nil => simp [lookupNum] at h
  | cons p rest ih =>
      obtain ⟨k, v⟩ := p
      unfold keysSorted at hs
      rw [List.pairwise_cons] at hs
      by_cases hk : k = n
      · have hv : v = l := by
          have h0 : lookupNum ((k, v) :: rest) n = some v := by simp [lookupNum, hk]
          rw [h0] at h
          exact Option.some.inj h
        have hgt : ∀ p ∈ rest, n < p.1 := by
          intro p hp
          have := hs.1 p hp
          rw [← hk]
          exact this
        have h1 : eraseNum ((k, v) :: rest) n = eraseNum rest n := by
          simp [eraseNum, List.filter_cons, hk]
        rw [h1, eraseNum_eq_self_of_gt rest n hgt, setNum_cons_of_lt rest n l hgt, hk, hv]
      · have h2 : lookupNum rest n = some l := by
          have h0 : lookupNum ((k, v) :: rest) n = lookupNum rest n := by
            simp [lookupNum, hk]
          rw [h0] at h
          exact h
        have hkn : k < n := by
          have hmem := mem_numKeys_of_lookup rest n l h2
          unfold numKeys at hmem
          obtain ⟨p', hp', hfst⟩ := List.mem_map.mp hmem
          have := hs.1 p' hp'
          rw [hfst] at this
          exact this
        have herase : eraseNum ((k, v) :: rest) n = (k, v) :: eraseNum rest n := by
          simp [eraseNum, List.filter_cons, hk]
        rw [herase]
        have hset : setNum ((k, v) :: eraseNum rest n) n l =
            (k, v) :: setNum (eraseNum rest n) n l := by
          simp [setNum, hk, Nat.not_lt_of_gt hkn]
        rw [hset, ih hs.2 h2]

theorem eraseNum_nil_singleton (ns : Numbers) (n l : Nat)
    (hs : keysSorted ns) (h : lookupNum ns n = some l)
    (he : eraseNum ns n = []) : ns = [(n, l)] := by
  induction ns with
  | nil => simp [lookupNum] at h
  | cons p rest ih =>
      obtain ⟨k, v⟩ := p
      unfold keysSorted at hs
      rw [List.pairwise_cons] at hs
      by_cases hk : k = n
      · have hv : v = l := by
          have h0 : lookupNum ((k, v) :: rest) n = some v := by simp [lookupNum, hk]
          rw [h0] at h
          exact Option.some.inj h
        have hgt : ∀ p ∈ rest, n < p.1 := by
          intro p hp
          have := hs.1 p hp
          rw [← hk]
          exact this
        have h1 : eraseNum ((k, v) :: rest) n = eraseNum rest n := by
          simp [eraseNum, List.filter_cons, hk]
        rw [h1, eraseNum_eq_self_of_gt rest n hgt] at he
        rw [he, hk, hv]
      · exfalso
        have h1 : eraseNum ((k, v) :: rest) n = (k, v) :: eraseNum rest n := by
          simp [eraseNum, List.filter_cons, hk]
        rw [h1] at he
        simp at he

theorem keysSorted_nodup (ns : Numbers) (hs : keysSorted ns) :
    (numKeys ns).Nodup := by
  unfold keysSorted at hs
  unfold numKeys List.Nodup
  rw [List.pairwise_map]
  exact hs.imp (fun h => Nat.ne_of_lt h)

theorem findNumAtLine_eq_none (ns : Numbers) (line : Nat)
    (h : ∀ p ∈ ns, p.2 ≠ line) : findNumAtLine ns line = none := by
  unfold findNumAtLine
  rw [List.find?_eq_none]
  intro p hp
  simpa using h p hp

theorem lookupNum_mem_of_nodup (ns : Numbers) (k l : Nat)
    (hnd : (numKeys ns).Nodup) (hmem : (k, l) ∈ ns) :
    lookupNum ns k = some l := by
  induction ns with
  | nil => simp at hmem
  | cons p rest ih =>
      obtain ⟨k', v⟩ := p
      have hcons : numKeys ((k', v) :: rest) = k' :: numKeys rest := rfl
      rw [hcons, List.nodup_cons] at hnd
      rcases List.mem_cons.mp hmem with h | h
      · obtain ⟨h1, h2⟩ := Prod.ext_iff.mp h
        simp only at h1 h2
        simp only [lookupNum]
        rw [if_pos h1.symm, h2]
      · have hkmem : k ∈ numKeys rest := List.mem_map_of_mem Prod.fst h
        have hne : k' ≠ k := fun he => hnd.1 (he ▸ hkmem)
        simp only [lookupNum, if_neg hne]
        exact ih hnd.2 h

theorem lookupNum_eq_none_of_not_mem (ns : Numbers) (k : Nat)
    (h : k ∉ numKeys ns) : lookupNum ns k = none := by
  rw [lookupNum_eq_none_iff]
  intro p hp he
  exact h (he ▸ List.mem_map_of_mem Prod.fst hp)

/-! ## Lemmas about sticky adjustment -/

theorem adjustEntry_key (c : EditChange) (p q : Nat × Nat)
    (h : adjustEntry c p = some q) : q.1 = p.1 := by
  unfold adjustEntry at h
  split at h
  · split at h
    · exact absurd h (by simp)
    · have := Option.some.inj h
      rw [← this]
  · have := Option.some.inj h
    rw [← this]

theorem lookupNum_adjust_not_mem (c : EditChange) (ns : Numbers) (k : Nat)
    (h : k ∉ numKeys ns) : lookupNum (ns.filterMap (adjustEntry c)) k = none := by
  rw [lookupNum_eq_none_iff]
  intro p hp
  obtain ⟨p0, hp0, hadj⟩ := List.mem_filterMap.mp hp
  rw [adjustEntry_key c p0 p hadj]
  intro he
  exact h (he ▸ List.mem_map_of_mem Prod.fst hp0)

theorem filterMap_adjust_lookup (c : EditChange) (ns : Numbers) (k l : Nat)
    (hnd : (numKeys ns).Nodup) (hmem : (k, l) ∈ ns) :
    lookupNum (ns.filterMap (adjustEntry c)) k =
      if c.startLine < l then
        (if (l : Int) + lineDelta c < 0 then none
         else some ((l : Int) + lineDelta c).toNat)
      else some l := by
  induction ns with
  | nil => simp at hmem
  | cons p rest ih =>
      obtain ⟨k', v⟩ := p
      have hcons : numKeys ((k', v) :: rest) = k' :: numKeys rest := rfl
      rw [hcons, List.nodup_cons] at hnd
      rcases List.mem_cons.mp hmem with h | h
      · obtain ⟨h1, h2⟩ := Prod.ext_iff.mp h
        simp only at h1 h2
        subst h1
        subst h2
        rw [List.filterMap_cons]
        by_cases hstart : c.startLine < l
        · by_cases hneg : (l : Int) + lineDelta c < 0
          · have hadj : adjustEntry c (k, l) = none := by
              simp [adjustEntry, hstart, hneg]
            rw [hadj, if_pos hstart, if_pos hneg]
            exact lookupNum_adjust_not_mem c rest k hnd.1
          · have hadj : adjustEntry c (k, l) =
                some (k, ((l : Int) + lineDelta c).toNat) := by
              simp [adjustEntry, hstart, hneg]
            rw [hadj, if_pos hstart, if_neg hneg]
            simp [lookupNum]
        · have hadj : adjustEntry c (k, l) = some (k, l) := by
            simp [adjustEntry, hstart]
          rw [hadj, if_neg hstart]
          simp [lookupNum]
      · have hkmem : k ∈ numKeys rest := List.mem_map_of_mem Prod.fst h
        have hne : k' ≠ k := fun he => hnd.1 (he ▸ hkmem)
        rw [List.filterMap_cons]
        cases hadj : adjustEntry c (k', v) with
        | none => exact ih hnd.2 h
        | some q =>
            obtain ⟨qk, qv⟩ := q
            have hq : qk = k' := adjustEntry_key c (k', v) (qk, qv) hadj
            simp only [lookupNum, if_neg (hq ▸ hne)]
            exact ih hnd.2 h

theorem adjust_lookup (c : EditChange) (ns : Numbers) (k l : Nat)
    (hnd : (numKeys ns).Nodup) (hmem : (k, l) ∈ ns) :
    lookupNum (adjustNumbers c ns) k =
      if c.startLine < l then
        (if (l : Int) + lineDelta c < 0 then none
         else some ((l : Int) + lineDelta c).toNat)
      else some l := by
  unfold adjustNumbers
  by_cases hz : lineDelta c = 0
  · rw [if_pos hz, lookupNum_mem_of_nodup ns k l hnd hmem, hz]
    by_cases hc : c.startLine < l
    · rw [if_pos hc, if_neg (by simp)]
      simp
    · rw [if_neg hc]
  · rw [if_neg hz]
    exact filterMap_adjust_lookup c ns k l hnd hmem

/-! ## Lemmas about the tree model -/

mutual
theorem removeIdN_noop (id : Nat) (n : TreeNode) (h : hasIdN id n = false) :
    removeIdN id n = n := by
  cases n with
  | folder i nm cs =>
      unfold hasIdN at h
      rw [Bool.or_eq_false_iff] at h
      unfold removeIdN
      rw [removeIdL_noop id cs h.2]
  | bookmark i p ns => rfl

theorem removeIdL_noop (id : Nat) (ts : List TreeNode) (h : hasIdL id ts = false) :
    removeIdL id ts = ts := by
  cases ts with
  | nil => rfl
  | cons n rest =>
      unfold hasIdL at h
      rw [Bool.or_eq_false_iff] at h
      have hni : ¬ (nodeId n = id) := by
        cases n with
        | folder i nm cs =>
            have h1 := h.1
            unfold hasIdN at h1
            rw [Bool.or_eq_false_iff] at h1
            simp only [nodeId]
            simpa using h1.1
        | bookmark i p ns =>
            have h1 := h.1
            unfold hasIdN at h1
            simp only [nodeId]
            simpa using h1
      have hd : ¬ (descendsInto id n = true) := by
        cases n with
        | folder i nm cs =>
            have h1 := h.1
            unfold hasIdN at h1
            rw [Bool.or_eq_false_iff] at h1
            unfold descendsInto
            simp [h1.2]
        | bookmark i p ns => simp [descendsInto]
      unfold removeIdL
      rw [if_neg hni, if_neg hd, removeIdL_noop id rest h.2]
end

theorem noEmptyL_append (ts us : List TreeNode) :
    noEmptyL (ts ++ us) = (noEmptyL ts && noEmptyL us) := by
  induction ts with
  | nil => simp [noEmptyL]
  | cons n rest ih =>
      show (noEmptyN n && noEmptyL (rest ++ us)) =
        ((noEmptyN n && noEmptyL rest) && noEmptyL us)
      rw [ih, Bool.and_assoc]

mutual
theorem noEmptyN_removeIdN (id : Nat) (n : TreeNode) (h : noEmptyN n = true) :
    noEmptyN (removeIdN id n) = true := by
  cases n with
  | folder i nm cs =>
      unfold noEmptyN at h
      unfold removeIdN noEmptyN
      exact noEmptyL_removeIdL id cs h
  | bookmark i p ns => exact h

theorem noEmptyL_removeIdL (id : Nat) (ts : List TreeNode) (h : noEmptyL ts = true) :
    noEmptyL (removeIdL id ts) = true := by
  cases ts with
  | nil => exact h
  | cons n rest =>
      unfold noEmptyL at h
      rw [Bool.and_eq_true] at h
      unfold removeIdL
      by_cases h1 : nodeId n = id
      · rw [if_pos h1]
        exact h.2
      · rw [if_neg h1]
        by_cases h2 : descendsInto id n = true
        · rw [if_pos h2]
          unfold noEmptyL
          rw [Bool.and_eq_true]
          exact ⟨noEmptyN_removeIdN id n h.1, h.2⟩
        · rw [if_neg h2]
          unfold noEmptyL
          rw [Bool.and_eq_true]
          exact ⟨h.1, noEmptyL_removeIdL id rest h.2⟩
end

mutual
theorem noEmptyN_replaceN (fp : String) (ns' : Numbers) (n : TreeNode)
    (hne : ns' ≠ []) (h : noEmptyN n = true) :
    noEmptyN (replaceNumbersN fp ns' n) = true := by
  cases n with
  | bookmark i p ns =>
      unfold replaceNumbersN
      by_cases hp : p = fp
      · rw [if_pos hp]
        cases ns' with
        | nil => exact absurd rfl hne
        | cons a as => rfl
      · rw [if_neg hp]
        exact h
  | folder i nm cs =>
      unfold noEmptyN at h
      unfold replaceNumbersN noEmptyN
      exact noEmptyL_replaceL fp ns' cs hne h

theorem noEmptyL_replaceL (fp : String) (ns' : Numbers) (ts : List TreeNode)
    (hne : ns' ≠ []) (h : noEmptyL ts = true) :
    noEmptyL (replaceNumbersL fp ns' ts) = true := by
  cases ts with
  | nil => exact h
  | cons n rest =>
      unfold noEmptyL at h
      rw [Bool.and_eq_true] at h
      unfold replaceNumbersL
      by_cases h1 : (findBN fp n).isSome = true
      · rw [if_pos h1]
        unfold noEmptyL
        rw [Bool.and_eq_true]
        exact ⟨noEmptyN_replaceN fp ns' n hne h.1, h.2⟩
      · rw [if_neg h1]
        unfold noEmptyL
        rw [Bool.and_eq_true]
        exact ⟨h.1, noEmptyL_replaceL fp ns' rest hne h.2⟩
end

mutual
theorem findBN_none_of_path (fp : String) (n : TreeNode) (h : fp ∉ pathsN n) :
    findBN fp n = none := by
  cases n with
  | bookmark i p ns =>
      have hne : ¬ p = fp := fun he => h (by simp [pathsN, he])
      unfold findBN
      rw [if_neg hne]
  | folder i nm cs =>
      unfold pathsN at h
      unfold findBN
      exact findBL_none_of_path fp cs h

theorem findBL_none_of_path (fp : String) (ts : List TreeNode) (h : fp ∉ pathsL ts) :
    findBL fp ts = none := by
  cases ts with
  | nil => rfl
  | cons n rest =>
      unfold pathsL at h
      rw [List.mem_append] at h
      push_neg at h
      unfold findBL
      rw [findBN_none_of_path fp n h.1]
      exact findBL_none_of_path fp rest h.2
end

mutual
theorem findBN_mem (fp : String) (n : TreeNode) (i : Nat) (ns : Numbers)
    (h : findBN fp n = some (i, ns)) : i ∈ nodeIdsN n ∧ fp ∈ pathsN n := by
  cases n with
  | bookmark j p ms =>
      unfold findBN at h
      by_cases hp : p = fp
      · rw [if_pos hp] at h
        have h1 : j = i := congrArg Prod.fst (Option.some.inj h)
        exact ⟨by simp [nodeIdsN, h1], by simp [pathsN, hp]⟩
      · rw [if_neg hp] at h
        exact absurd h (by simp)
  | folder j nm cs =>
      unfold findBN at h
      have hrec := findBL_mem fp cs i ns h
      constructor
      · unfold nodeIdsN
        exact List.mem_cons_of_mem j hrec.1
      · unfold pathsN
        exact hrec.2

theorem findBL_mem (fp : String) (ts : List TreeNode) (i : Nat) (ns : Numbers)
    (h : findBL fp ts = some (i, ns)) : i ∈ nodeIdsL ts ∧ fp ∈ pathsL ts := by
  cases ts with
  | nil => exact absurd h (by simp [findBL])
  | cons n rest =>
      unfold findBL at h
      cases hn : findBN fp n with
      | some r =>
          rw [hn] at h
          have hr : r = (i, ns) := Option.some.inj h
          have hrec := findBN_mem fp n i ns (hr ▸ hn)
          constructor
          · unfold nodeIdsL
            exact List.mem_append_left _ hrec.1
          · unfold pathsL
            exact List.mem_append_left _ hrec.2
      | none =>
          rw [hn] at h
          have hrec := findBL_mem fp rest i ns h
          constructor
          · unfold nodeIdsL
            exact List.mem_append_right _ hrec.1
          · unfold pathsL
            exact List.mem_append_right _ hrec.2
end

mutual
theorem hasIdN_iff_mem (id : Nat) (n : TreeNode) :
    hasIdN id n = true ↔ id ∈ nodeIdsN n := by
  cases n with
  | bookmark i p ns =>
      unfold hasIdN nodeIdsN
      rw [beq_iff_eq, List.mem_singleton]
      exact eq_comm
  | folder i nm cs =>
      unfold hasIdN nodeIdsN
      rw [Bool.or_eq_true, List.mem_cons]
      constructor
      · rintro (h | h)
        · exact Or.inl (by rw [beq_iff_eq] at h; exact h.symm)
        · exact Or.inr ((hasIdL_iff_mem id cs).mp h)
      · rintro (h | h)
        · exact Or.inl (by rw [beq_iff_eq]; exact h.symm)
        · exact Or.inr ((hasIdL_iff_mem id cs).mpr h)

theorem hasIdL_iff_mem (id : Nat) (ts : List TreeNode) :
    hasIdL id ts = true ↔ id ∈ nodeIdsL ts := by
  cases ts with
  | nil => simp [hasIdL, nodeIdsL]
  | cons n rest =>
      unfold hasIdL nodeIdsL
      rw [Bool.or_eq_true, List.mem_append]
      constructor
      · rintro (h | h)
        · exact Or.inl ((hasIdN_iff_mem id n).mp h)
        · exact Or.inr ((hasIdL_iff_mem id rest).mp h)
      · rintro (h | h)
        · exact Or.inl ((hasIdN_iff_mem id n).mpr h)
        · exact Or.inr ((hasIdL_iff_mem id rest).mpr h)
end

theorem nodeIdsN_folder (i : Nat) (nm : String) (cs : List TreeNode) :
    nodeIdsN (TreeNode.folder i nm cs) = i :: nodeIdsL cs := rfl

theorem nodeIdsL_cons (n : TreeNode) (rest : List TreeNode) :
    nodeIdsL (n :: rest) = nodeIdsN n ++ nodeIdsL rest := rfl

theorem nodeId_mem_nodeIdsN (n : TreeNode) : nodeId n ∈ nodeIdsN n := by
  cases n with
  | folder i nm cs => simp [nodeId, nodeIdsN]
  | bookmark i p ns => simp [nodeId, nodeIdsN]

mutual
theorem findBN_removeIdN_none (fp : String) (n : TreeNode) (i : Nat) (ns : Numbers)
    (hids : (nodeIdsN n).Nodup) (hpaths : (pathsN n).Nodup)
    (h : findBN fp n = some (i, ns)) (hni : nodeId n ≠ i) :
    findBN fp (removeIdN i n) = none := by
  cases n with
  | bookmark j p ms =>
      exfalso
      have hmem := findBN_mem fp (TreeNode.bookmark j p ms) i ns h
      have hj : i = j := by simpa [nodeIdsN] using hmem.1
      exact hni (by simp [nodeId, hj])
  | folder j nm cs =>
      have hcs : findBL fp cs = some (i, ns) := h
      unfold removeIdN findBN
      unfold nodeIdsN at hids
      rw [List.nodup_cons] at hids
      exact findBL_removeIdL_none fp cs i ns hids.2 hpaths hcs

theorem findBL_removeIdL_none (fp : String) (ts : List TreeNode) (i : Nat) (ns : Numbers)
    (hids : (nodeIdsL ts).Nodup) (hpaths : (pathsL ts).Nodup)
    (h : findBL fp ts = some (i, ns)) :
    findBL fp (removeIdL i ts) = none := by
  cases ts with
  | nil => exact absurd h (by simp [findBL])
  | cons n rest =>
      unfold nodeIdsL at hids
      unfold pathsL at hpaths
      rw [List.nodup_append] at hids hpaths
      unfold findBL at h
      cases hn : findBN fp n with
      | some r =>
          rw [hn] at h
          have hr : r = (i, ns) := Option.some.inj h
          have hsome : findBN fp n = some (i, ns) := hr ▸ hn
          have hmem := findBN_mem fp n i ns hsome
          have hfp_rest : fp ∉ pathsL rest := fun hc => hpaths.2.2 hmem.2 hc
          cases n with
          | bookmark j p ms =>
              have hj : i = j := by simpa [nodeIdsN] using hmem.1
              unfold removeIdL
              rw [if_pos (by simp [nodeId, hj])]
              exact findBL_none_of_path fp rest hfp_rest
          | folder j nm cs =>
              have hcs : findBL fp cs = some (i, ns) := hsome
              have hics := (findBL_mem fp cs i ns hcs).1
              have hji : ¬ (j = i) := by
                intro he
                have hnod : (nodeIdsN (TreeNode.folder j nm cs)).Nodup := hids.1
                unfold nodeIdsN at hnod
                rw [List.nodup_cons] at hnod
                exact hnod.1 (he ▸ hics)
              unfold removeIdL
              rw [if_neg (by simp [nodeId]; exact hji)]
              have hdesc : descendsInto i (TreeNode.folder j nm cs) = true := by
                unfold descendsInto
                exact (hasIdL_iff_mem i cs).mpr hics
              rw [if_pos hdesc]
              unfold findBL
              rw [findBN_removeIdN_none fp (TreeNode.folder j nm cs) i ns hids.1
                hpaths.1 hsome (by simp [nodeId]; exact hji)]
              exact findBL_none_of_path fp rest hfp_rest
      | none =>
          rw [hn] at h
          have hrest := findBL_mem fp rest i ns h
          have hnotn : i ∉ nodeIdsN n := fun hc => hids.2.2 hc hrest.1
          have hni : ¬ (nodeId n = i) := fun he => hnotn (he ▸ nodeId_mem_nodeIdsN n)
          have hdesc : ¬ (descendsInto i n = true) := by
            cases n with
            | folder j nm cs =>
                unfold descendsInto
                intro hc
                have := (hasIdL_iff_mem i cs).mp hc
                exact hnotn (by unfold nodeIdsN; exact List.mem_cons_of_mem j this)
            | bookmark j p ms => simp [descendsInto]
          unfold removeIdL
          rw [if_neg hni, if_neg hdesc]
          unfold findBL
          rw [hn]
          exact findBL_removeIdL_none fp rest i ns hids.2.1 hpaths.2.1 h
end

mutual
theorem removeGetN_count (id : Nat) (n found : TreeNode) (n' : TreeNode)
    (h : removeGetN id n = (some found, n')) (x : Nat) :
    (nodeIdsN n).count x = (nodeIdsN found).count x + (nodeIdsN n').count x := by
  cases n with
  | bookmark i fp ns =>
      exfalso
      have := congrArg Prod.fst h
      simp [removeGetN] at this
  | folder i nm cs =>
      unfold removeGetN at h
      have h1 : (removeGetL id cs).1 = some found := congrArg Prod.fst h
      have h2 : n' = TreeNode.folder i nm (removeGetL id cs).2 := (congrArg Prod.snd h).symm
      subst h2
      have hrec := removeGetL_count id cs found (removeGetL id cs).2
        (by rw [← h1]) x
      rw [nodeIdsN_folder, nodeIdsN_folder]
      simp only [List.count_cons]
      omega

theorem removeGetL_count (id : Nat) (ts : List TreeNode) (found : TreeNode)
    (rest' : List TreeNode) (h : removeGetL id ts = (some found, rest')) (x : Nat) :
    (nodeIdsL ts).count x = (nodeIdsN found).count x + (nodeIdsL rest').count x := by
  cases ts with
  | nil =>
      exfalso
      have := congrArg Prod.fst h
      simp [removeGetL] at this
  | cons n rest =>
      unfold removeGetL at h
      by_cases h1 : nodeId n = id
      · rw [if_pos h1] at h
        have hf : n = found := by
          have := congrArg Prod.fst h
          simpa using this
        have hr : rest = rest' := congrArg Prod.snd h
        subst hf
        subst hr
        rw [nodeIdsL_cons, List.count_append]
      · rw [if_neg h1] at h
        cases hg : (removeGetN id n).1 with
        | some f =>
            rw [hg] at h
            have hf : f = found := by
              have := congrArg Prod.fst h
              simpa using this
            have hr : rest' = (removeGetN id n).2 :: rest := (congrArg Prod.snd h).symm
            subst hf
            subst hr
            have hrec := removeGetN_count id n f (removeGetN id n).2
              (by rw [← hg]) x
            rw [nodeIdsL_cons, nodeIdsL_cons, List.count_append, List.count_append]
            omega
        | none =>
            rw [hg] at h
            have hf : (removeGetL id rest).1 = some found := congrArg Prod.fst h
            have hr : rest' = n :: (removeGetL id rest).2 := (congrArg Prod.snd h).symm
            subst hr
            have hrec := removeGetL_count id rest found (removeGetL id rest).2
              (by rw [← hf]) x
            rw [nodeIdsL_cons, nodeIdsL_cons, List.count_append, List.count_append]
            omega
end

mutual
theorem findFolderN_mem (id : Nat) (n : TreeNode) (f : Nat × String × List TreeNode)
    (h : findFolderN id n = some f) : id ∈ nodeIdsN n := by
  cases n with
  | bookmark i p ns => exact absurd h (by simp [findFolderN])
  | folder i nm cs =>
      unfold findFolderN at h
      by_cases hi : i = id
      · unfold nodeIdsN
        rw [hi]
        exact List.mem_cons_self id _
      · rw [if_neg hi] at h
        unfold nodeIdsN
        exact List.mem_cons_of_mem i (findFolderL_mem id cs f h)

theorem findFolderL_mem (id : Nat) (ts : List TreeNode) (f : Nat × String × List TreeNode)
    (h : findFolderL id ts = some f) : id ∈ nodeIdsL ts := by
  cases ts with
  | nil => exact absurd h (by simp [findFolderL])
  | cons n rest =>
      unfold findFolderL at h
      cases hn : findFolderN id n with
      | some g =>
          unfold nodeIdsL
          exact List.mem_append_left _ (findFolderN_mem id n g hn)
      | none =>
          rw [hn] at h
          unfold nodeIdsL
          exact List.mem_append_right _ (findFolderL_mem id rest f h)
end

/-! ## Store-level helper lemmas -/

theorem fireSave_items (s : Store) : (fireSave s).items = s.items := rfl

theorem fireSave_saveCount (s : Store) : (fireSave s).saveCount = s.saveCount + 1 := rfl

theorem fireSave_eventCount (s : Store) : (fireSave s).eventCount = s.eventCount + 1 := rfl

theorem findBL_single (fp : String) (id : Nat) (ns : Numbers) :
    findBL fp [TreeNode.bookmark id fp ns] = some (id, ns) := by
  simp [findBL, findBN]

theorem replaceL_single (fp : String) (id : Nat) (ns ns' : Numbers) :
    replaceNumbersL fp ns' [TreeNode.bookmark id fp ns] =
      [TreeNode.bookmark id fp ns'] := by
  simp [replaceNumbersL, replaceNumbersN, findBN]

theorem removeIdL_single (id : Nat) (fp : String) (ns : Numbers) :
    removeIdL id [TreeNode.bookmark id fp ns] = [] := by
  simp [removeIdL, nodeId]

theorem toggle_items_empty (fp : String) (n line : Nat) (s : Store)
    (hitems : s.items = []) :
    (toggleBookmark fp n line s).items = [TreeNode.bookmark s.nextId fp [(n, line)]] := by
  simp only [toggleBookmark, hitems]
  rfl

theorem toggle_items_single (fp : String) (n line id : Nat) (ns : Numbers) (s : Store)
    (hitems : s.items = [TreeNode.bookmark id fp ns]) :
    (toggleBookmark fp n line s).items =
      if lookupNum ns n = some line then
        (if (eraseNum ns n).isEmpty then [] else [TreeNode.bookmark id fp (eraseNum ns n)])
      else [TreeNode.bookmark id fp
        (setNum (match findNumAtLine ns line with
                 | some p => eraseNum ns p.1
                 | none => ns) n line)] := by
  simp only [toggleBookmark, hitems, findBL_single]
  rw [apply_ite Store.items, apply_ite Store.items]
  simp only [fireSave_items]
  simp only [hitems, removeIdL_single, replaceL_single]

theorem add_items_empty (fp : String) (n line : Nat) (s : Store)
    (hitems : s.items = []) :
    (addBookmark fp n line s).items = [TreeNode.bookmark s.nextId fp [(n, line)]] := by
  simp only [addBookmark, hitems]
  rfl

theorem add_items_single (fp : String) (n line id : Nat) (ns : Numbers) (s : Store)
    (hitems : s.items = [TreeNode.bookmark id fp ns]) :
    (addBookmark fp n line s).items = [TreeNode.bookmark id fp (setNum ns n line)] := by
  simp only [addBookmark, hitems, findBL_single, fireSave_items]
  simp only [hitems, replaceL_single]

theorem handleTDC_items_single (fp : String) (c : EditChange) (id : Nat)
    (ns : Numbers) (s : Store) (hitems : s.items = [TreeNode.bookmark id fp ns]) :
    (handleTextDocumentChange fp [c] s).items =
      [TreeNode.bookmark id fp (adjustNumbers c ns)] := by
  simp only [handleTextDocumentChange, hitems, findBL_single]
  simp only [List.isEmpty_cons, List.foldl]
  rw [if_neg (by simp)]
  rw [apply_ite Store.items]
  simp only [fireSave_items]
  simp only [hitems, replaceL_single, ite_self]

theorem isEmpty_eq_false_of_ne_nil {α : Type} {l : List α} (h : l ≠ []) :
    l.isEmpty = false := by
  cases l with
  | nil => exact absurd rfl h
  | cons a as => rfl

/-! ## Claim theorems -/

/-- C1: the claim says a file-delete event only records a pending deletion
and a ~1s grace period protects the bookmark until a matching create
cancels it. The code has no such mechanism: `handleFileDelete` removes the
bookmark at once, and a create event does nothing (`detectFileRename`
always returns `null`), so delete followed immediately by create loses the
bookmark. This theorem evaluates the handlers at the failing input: a
store holding mark 0 at line 5 of `a.ts`. -/
theorem C1_delete_removes_immediately :
    marksOf (addBookmark "a.ts" 0 5 emptyStore) "a.ts" = some [(0, 5)]
  ∧ marksOf (handleFsEvent (FsEvent.fsDelete "a.ts")
      (addBookmark "a.ts" 0 5 emptyStore)) "a.ts" = none
  ∧ marksOf (handleFsEvent (FsEvent.fsCreate "a.ts")
      (handleFsEvent (FsEvent.fsDelete "a.ts")
        (addBookmark "a.ts" 0 5 emptyStore))) "a.ts" = none :=
  ⟨rfl, rfl, rfl⟩

/-- C2 counterexample: sticky line adjustment violates the no-empty-numbers
invariant. A bookmark with the single mark `0 ↦ 1` in `a`, hit by an edit
deleting lines 0–5 (delta −5), has its only entry dropped (adjusted line
−4 < 0), yet `handleTextDocumentChange` never removes the node: the tree
keeps a bookmark for `a` whose numbers map is empty. -/
theorem C2_sticky_leaves_empty_bookmark :
    findBL "a" ((handleTextDocumentChange "a" [⟨0, 5, 0⟩]
      (singleBookmarkStore 7 "a" [(0, 1)])).items) = some (7, [])
  ∧ noEmptyL ((handleTextDocumentChange "a" [⟨0, 5, 0⟩]
      (singleBookmarkStore 7 "a" [(0, 1)])).items) = false :=
  ⟨rfl, rfl⟩

/-- C3 counterexample: `addBookmark` (the spec's `setMark`) does not clear
another number pointing at the same line. After `setMark("a", 1, 5)` then
`setMark("a", 2, 5)`, the file's numbers map is `{1 ↦ 5, 2 ↦ 5}` and
number 1 is still present, contrary to the claim. -/
theorem C3_setMark_keeps_other_number :
    marksOf (addBookmark "a" 2 5 (addBookmark "a" 1 5 emptyStore)) "a"
      = some [(1, 5), (2, 5)]
  ∧ optLookup (marksOf (addBookmark "a" 2 5 (addBookmark "a" 1 5 emptyStore)) "a") 1
      = some 5 :=
  ⟨rfl, rfl⟩

/-- C3 amended: `setMark(filePath, number, line)` assigns `number → line`
unconditionally (creating the Bookmark node if absent) but leaves every
other number untouched, including one pointing at the same line: after
`setMark(file, n, L)` then `setMark(file, m, L)` with `m ≠ n`, both `n`
and `m` map to `L`. -/
theorem C3_amended_setMark_keeps_others (fp : String) (n m L : Nat) (h : n ≠ m) :
    optLookup (marksOf (addBookmark fp m L (addBookmark fp n L emptyStore)) fp) n = some L
  ∧ optLookup (marksOf (addBookmark fp m L (addBookmark fp n L emptyStore)) fp) m
      = some L := by
  have h1 : (addBookmark fp n L emptyStore).items = [TreeNode.bookmark 0 fp [(n, L)]] :=
    add_items_empty fp n L emptyStore rfl
  have h2 : (addBookmark fp m L (addBookmark fp n L emptyStore)).items =
      [TreeNode.bookmark 0 fp (setNum [(n, L)] m L)] :=
    add_items_single fp m L 0 [(n, L)] _ h1
  have h3 : marksOf (addBookmark fp m L (addBookmark fp n L emptyStore)) fp
      = some (setNum [(n, L)] m L) := by
    simp [marksOf, h2, findBL_single]
  constructor
  · rw [h3]
    show lookupNum (setNum [(n, L)] m L) n = some L
    rw [lookupNum_setNum_ne [(n, L)] m L n h]
    simp [lookupNum]
  · rw [h3]
    exact lookupNum_setNum_self [(n, L)] m L

/-- C3 amended witness at `fp = "a"`, `n = 1`, `m = 2`, `L = 5`. -/
theorem C3_amended_setMark_keeps_others_witness :
    (1 : Nat) ≠ 2
  ∧ optLookup (marksOf (addBookmark "a" 2 5 (addBookmark "a" 1 5 emptyStore)) "a") 2
      = some 5 :=
  ⟨by decide, (C3_amended_setMark_keeps_others "a" 1 2 5 (by decide)).2⟩

/-- C4 counterexample: toggling twice with identical arguments is not a
round trip, and a single toggle can destroy another number. Start from
`{2 ↦ 5}` in file `a` (reached by one toggle); `toggleBookmark("a", 1, 5)`
deletes number 2 (it occupied line 5) and installs `{1 ↦ 5}`; repeating
the same toggle then removes number 1 and with it the node — the mark set
ends as absent instead of `{2 ↦ 5}`. -/
theorem C4_double_toggle_not_roundtrip :
    marksOf (toggleBookmark "a" 2 5 emptyStore) "a" = some [(2, 5)]
  ∧ marksOf (toggleBookmark "a" 1 5 (toggleBookmark "a" 2 5 emptyStore)) "a"
      = some [(1, 5)]
  ∧ marksOf (toggleBookmark "a" 1 5 (toggleBookmark "a" 1 5
      (toggleBookmark "a" 2 5 emptyStore))) "a" = none :=
  ⟨rfl, rfl, rfl⟩

/-- C4 amended: the double-toggle round trip on a file's mark set holds
when no number other than `n` points at `line` and `n` is either absent or
already at `line` (conditions the counterexample shows are necessary):
then toggling `(fp, n, line)` twice restores the mark set exactly, a
single toggle leaves every other number unchanged, and on a file with no
bookmark a double toggle returns to the absent state. -/
theorem C4_amended_toggle_roundtrip (fp : String) (n line id : Nat) (ns : Numbers)
    (hs : keysSorted ns) (hne : ns ≠ [])
    (hother : ∀ p ∈ ns, p.2 = line → p.1 = n)
    (hn : lookupNum ns n = none ∨ lookupNum ns n = some line) :
    marksOf (toggleBookmark fp n line (toggleBookmark fp n line
      (singleBookmarkStore id fp ns))) fp = some ns
  ∧ (∀ k, k ≠ n →
      optLookup (marksOf (toggleBookmark fp n line (singleBookmarkStore id fp ns)) fp) k
        = lookupNum ns k)
  ∧ marksOf (toggleBookmark fp n line (toggleBookmark fp n line emptyStore)) fp
      = none := by
  have hthird : marksOf (toggleBookmark fp n line (toggleBookmark fp n line
      emptyStore)) fp = none := by
    have e1 : (toggleBookmark fp n line emptyStore).items =
        [TreeNode.bookmark 0 fp [(n, line)]] :=
      toggle_items_empty fp n line emptyStore rfl
    have e2 := toggle_items_single fp n line 0 [(n, line)] _ e1
    have hl : lookupNum [(n, line)] n = some line := by simp [lookupNum]
    have herase : eraseNum [(n, line)] n = [] := by simp [eraseNum]
    rw [if_pos hl, herase] at e2
    simp only [List.isEmpty_nil, if_true] at e2
    simp [marksOf, e2, findBL]
  have hitems0 : (singleBookmarkStore id fp ns).items = [TreeNode.bookmark id fp ns] :=
    rfl
  have ht1 := toggle_items_single fp n line id ns _ hitems0
  rcases hn with hnone | hsome
  · have hfind : findNumAtLine ns line = none := by
      apply findNumAtLine_eq_none
      intro p hp hpl
      exact (lookupNum_eq_none_iff ns n).mp hnone p hp (hother p hp hpl)
    have hcond : ¬ (lookupNum ns n = some line) := by rw [hnone]; simp
    rw [if_neg hcond, hfind] at ht1
    dsimp only at ht1
    have ht2 := toggle_items_single fp n line id (setNum ns n line) _ ht1
    have hl2 : lookupNum (setNum ns n line) n = some line :=
      lookupNum_setNum_self ns n line
    have herase2 : eraseNum (setNum ns n line) n = ns := by
      rw [eraseNum_setNum, eraseNum_eq_self_of_lookup_none ns n hnone]
    rw [if_pos hl2, herase2, isEmpty_eq_false_of_ne_nil hne] at ht2
    rw [if_neg (by simp)] at ht2
    refine ⟨?_, ?_, hthird⟩
    · simp [marksOf, ht2, findBL_single]
    · intro k hk
      have hm : marksOf (toggleBookmark fp n line (singleBookmarkStore id fp ns)) fp
          = some (setNum ns n line) := by simp [marksOf, ht1, findBL_single]
      rw [hm]
      show lookupNum (setNum ns n line) k = lookupNum ns k
      exact lookupNum_setNum_ne ns n line k hk
  · rw [if_pos hsome] at ht1
    by_cases hempty : eraseNum ns n = []
    · have hns : ns = [(n, line)] := eraseNum_nil_singleton ns n line hs hsome hempty
      rw [hempty] at ht1
      simp only [List.isEmpty_nil, if_true] at ht1
      have ht2 := toggle_items_empty fp n line _ ht1
      refine ⟨?_, ?_, hthird⟩
      · have : marksOf (toggleBookmark fp n line (toggleBookmark fp n line
            (singleBookmarkStore id fp ns))) fp = some [(n, line)] := by
          simp [marksOf, ht2, findBL_single]
        rw [this, hns]
      · intro k hk
        have hm : marksOf (toggleBookmark fp n line (singleBookmarkStore id fp ns)) fp
            = none := by simp [marksOf, ht1, findBL]
        rw [hm, hns]
        show none = lookupNum [(n, line)] k
        have hnk : ¬ (n = k) := fun he => hk he.symm
        simp [lookupNum, hnk]
    · rw [isEmpty_eq_false_of_ne_nil hempty, if_neg (by simp)] at ht1
      have ht2 := toggle_items_single fp n line id (eraseNum ns n) _ ht1
      have hl2 : ¬ (lookupNum (eraseNum ns n) n = some line) := by
        rw [lookupNum_eraseNum_self]
        simp
      have hfind2 : findNumAtLine (eraseNum ns n) line = none := by
        apply findNumAtLine_eq_none
        intro p hp hpl
        have hpmem : p ∈ ns := List.mem_of_mem_filter hp
        have hp1 : p.1 = n := hother p hpmem hpl
        have hpf := List.of_mem_filter hp
        rw [hp1] at hpf
        simp at hpf
      rw [if_neg hl2, hfind2] at ht2
      dsimp only at ht2
      rw [setNum_eraseNum_of_lookup ns n line hs hsome] at ht2
      refine ⟨?_, ?_, hthird⟩
      · simp [marksOf, ht2, findBL_single]
      · intro k hk
        have hm : marksOf (toggleBookmark fp n line (singleBookmarkStore id fp ns)) fp
            = some (eraseNum ns n) := by simp [marksOf, ht1, findBL_single]
        rw [hm]
        show lookupNum (eraseNum ns n) k = lookupNum ns k
        exact lookupNum_eraseNum_ne ns n k hk

/-- C4 amended witness at `fp = "a"`, `n = 3`, `line = 9`, bookmark
`{3 ↦ 9}` with id 7. -/
theorem C4_amended_toggle_roundtrip_witness :
    keysSorted [(3, 9)]
  ∧ ([(3, 9)] : Numbers) ≠ []
  ∧ marksOf (toggleBookmark "a" 3 9 (toggleBookmark "a" 3 9
      (singleBookmarkStore 7 "a" [(3, 9)]))) "a" = some [(3, 9)] :=
  ⟨by decide, by decide,
    (C4_amended_toggle_roundtrip "a" 3 9 7 [(3, 9)] (by decide) (by decide)
      (by decide) (Or.inr rfl)).1⟩

/-- C5 counterexample: moving a folder into its own descendant is not a
no-op. With root folder F (id 1) containing A (id 2) containing B (id 3),
`moveNode(2, 3)` detaches A first, so the lookup of target 3 runs on the
remaining tree and fails, and A is appended to the root: the tree goes
from one root node to two. -/
theorem C5_move_into_descendant_changes_tree :
    (moveNode 2 (some 3) (Store.mk "1.0"
      [TreeNode.folder 1 "F" [TreeNode.folder 2 "A" [TreeNode.folder 3 "B" []]]]
      10 0 0)).items =
      [TreeNode.folder 1 "F" [],
       TreeNode.folder 2 "A" [TreeNode.folder 3 "B" []]]
  ∧ (Store.mk "1.0"
      [TreeNode.folder 1 "F" [TreeNode.folder 2 "A" [TreeNode.folder 3 "B" []]]]
      10 0 0).items.length = 1
  ∧ (moveNode 2 (some 3) (Store.mk "1.0"
      [TreeNode.folder 1 "F" [TreeNode.folder 2 "A" [TreeNode.folder 3 "B" []]]]
      10 0 0)).items.length = 2 :=
  ⟨rfl, rfl, rfl⟩

/-- C5 amended: `moveNode(id, target)` with the target inside the moved
subtree (the node itself or any descendant, i.e. any id of the detached
node's id set) is not rejected: the subtree is detached and, because
`findFolderById` runs on the tree that remains after detachment and finds
nothing there, the subtree is appended to the root sequence; a save and a
change notification still fire. -/
theorem C5_amended_move_into_descendant_goes_to_root (s : Store) (id tid : Nat)
    (node : TreeNode) (rest : List TreeNode)
    (hnd : (nodeIdsL s.items).Nodup)
    (hrem : removeGetL id s.items = (some node, rest))
    (htid : tid ∈ nodeIdsN node) :
    (moveNode id (some tid) s).items = rest ++ [node]
  ∧ (moveNode id (some tid) s).saveCount = s.saveCount + 1
  ∧ (moveNode id (some tid) s).eventCount = s.eventCount + 1 := by
  have hcount := removeGetL_count id s.items node rest hrem tid
  have hle : (nodeIdsL s.items).count tid ≤ 1 :=
    List.nodup_iff_count_le_one.mp hnd tid
  have hpos : 0 < (nodeIdsN node).count tid := List.count_pos_iff.mpr htid
  have hnotmem : tid ∉ nodeIdsL rest := by
    intro hc
    have := List.count_pos_iff.mpr hc
    omega
  have hff : findFolderL tid rest = none := by
    cases hf : findFolderL tid rest with
    | none => rfl
    | some f => exact absurd (findFolderL_mem tid rest f hf) hnotmem
  refine ⟨?_, ?_, ?_⟩
  · simp only [moveNode, hrem, hff, fireSave_items]
  · simp only [moveNode, hrem, hff, fireSave_saveCount]
  · simp only [moveNode, hrem, hff, fireSave_eventCount]

/-- C5 amended witness on the counterexample tree: F(1) ⊃ A(2) ⊃ B(3),
moving A into B. -/
theorem C5_amended_move_witness :
    removeGetL 2 [TreeNode.folder 1 "F" [TreeNode.folder 2 "A" [TreeNode.folder 3 "B" []]]]
      = (some (TreeNode.folder 2 "A" [TreeNode.folder 3 "B" []]),
         [TreeNode.folder 1 "F" []])
  ∧ (moveNode 2 (some 3) (Store.mk "1.0"
      [TreeNode.folder 1 "F" [TreeNode.folder 2 "A" [TreeNode.folder 3 "B" []]]]
      10 0 0)).items
      = [TreeNode.folder 1 "F" []] ++ [TreeNode.folder 2 "A" [TreeNode.folder 3 "B" []]] :=
  ⟨rfl,
    (C5_amended_move_into_descendant_goes_to_root
      (Store.mk "1.0"
        [TreeNode.folder 1 "F" [TreeNode.folder 2 "A" [TreeNode.folder 3 "B" []]]]
        10 0 0)
      2 3 (TreeNode.folder 2 "A" [TreeNode.folder 3 "B" []]) [TreeNode.folder 1 "F" []]
      (by decide) rfl (by decide)).1⟩

/-- C6 counterexample: `createFolder("X", 99)` with unknown parent id 99 on
the empty store adds the folder nowhere — the root stays empty (the claim
says it falls back to the root). A save still runs. -/
theorem C6_unknown_parent_not_added :
    (createFolder "X" (some 99) emptyStore).items = []
  ∧ (createFolder "X" (some 99) emptyStore).saveCount = 1 :=
  ⟨rfl, rfl⟩

/-- C6 amended: `createFolder(name, parentId?)` appends the new folder to
the root sequence only when `parentId` is omitted; when `parentId` does
not identify an existing folder the push is skipped entirely and the
folder is added nowhere (a save still runs); when `parentId` names an
existing folder the new folder is appended to that folder's children. -/
theorem C6_amended_createFolder (name : String) (s : Store) (pid k : Nat)
    (nm : String) (cs : List TreeNode)
    (hnone : findFolderL pid s.items = none) :
    (createFolder name none s).items = s.items ++ [TreeNode.folder s.nextId name []]
  ∧ (createFolder name (some pid) s).items = s.items
  ∧ (createFolder name (some pid) s).saveCount = s.saveCount + 1
  ∧ (createFolder name (some pid)
      (Store.mk "1.0" [TreeNode.folder pid nm cs] k 0 0)).items
      = [TreeNode.folder pid nm (cs ++ [TreeNode.folder k name []])] := by
  refine ⟨rfl, ?_, ?_, ?_⟩
  · simp only [createFolder, hnone, fireSave_items]
  · simp only [createFolder, hnone, fireSave_saveCount]
  · have hfind : findFolderL pid [TreeNode.folder pid nm cs] = some (pid, nm, cs) := by
      simp [findFolderL, findFolderN]
    simp only [createFolder, hfind, fireSave_items]
    simp [pushChildL, pushChildN, findFolderN]

/-- C6 amended witness: unknown parent id 99 on the empty store. -/
theorem C6_amended_createFolder_witness :
    findFolderL 99 emptyStore.items = none
  ∧ (createFolder "X" (some 99) emptyStore).items = emptyStore.items :=
  ⟨rfl, (C6_amended_createFolder "X" emptyStore 99 0 "P" [] rfl).2.1⟩

/-- C7: sticky adjustment semantics for one edit-delta event. With
`lineDelta = insertedLines − (endLine − startLine)`, every mark strictly
past `startLine` is shifted by the delta and deleted exactly when the
adjusted line is negative; marks at or before `startLine` keep their
lines. Stated for the file's mark set under `handleTextDocumentChange`
and per mark of the numbers map. -/
theorem C7_sticky_adjustment (c : EditChange) (ns : Numbers)
    (hnd : (numKeys ns).Nodup) :
    (∀ fp id s, s.items = [TreeNode.bookmark id fp ns] →
      marksOf (handleTextDocumentChange fp [c] s) fp = some (adjustNumbers c ns))
  ∧ (∀ k l, (k, l) ∈ ns →
      lookupNum (adjustNumbers c ns) k =
        if c.startLine < l then
          (if (l : Int) + lineDelta c < 0 then none
           else some ((l : Int) + lineDelta c).toNat)
        else some l) := by
  constructor
  · intro fp id s hitems
    simp [marksOf, handleTDC_items_single fp c id ns s hitems, findBL_single]
  · intro k l hmem
    exact adjust_lookup c ns k l hnd hmem

/-- C7 witness: mark 0 at line 10, insert three lines at line 5: the
mark moves to line 13. -/
theorem C7_sticky_adjustment_witness :
    (numKeys [(0, 10)]).Nodup
  ∧ ((0, 10) ∈ ([(0, 10)] : Numbers))
  ∧ lookupNum (adjustNumbers ⟨5, 5, 3⟩ [(0, 10)]) 0 = some 13 := by
  refine ⟨by decide, by decide, ?_⟩
  have h := (C7_sticky_adjustment ⟨5, 5, 3⟩ [(0, 10)] (by decide)).2 0 10 (by decide)
  norm_num [lineDelta] at h
  exact h

/-- C8 counterexample: with mark 0 at line 10, the edit-delta event for
deleting lines 8–12 (`startLine 8`, `endLine 12`, zero inserted lines,
delta −4) does not remove the mark as the claim says: 10 − 4 = 6 is not
negative, so the mark survives, relocated to line 6. -/
theorem C8_delete_range_does_not_remove :
    marksOf (handleTextDocumentChange "a" [⟨8, 12, 0⟩]
      (singleBookmarkStore 7 "a" [(0, 10)])) "a" = some [(0, 6)]
  ∧ marksOf (handleTextDocumentChange "a" [⟨8, 12, 0⟩]
      (singleBookmarkStore 7 "a" [(0, 10)])) "a" ≠ none :=
  ⟨rfl, by decide⟩

/-- C8 amended: with a mark at line 10, inserting 3 lines at line 5
relocates it to line 13; deleting lines 8–12 relocates it to line 6 — a
mark is removed only when its adjusted line would become negative, which
a deletion containing the marked line does not imply. -/
theorem C8_amended_sticky_examples :
    marksOf (handleTextDocumentChange "a" [⟨5, 5, 3⟩]
      (singleBookmarkStore 7 "a" [(0, 10)])) "a" = some [(0, 13)]
  ∧ marksOf (handleTextDocumentChange "a" [⟨8, 12, 0⟩]
      (singleBookmarkStore 7 "a" [(0, 10)])) "a" = some [(0, 6)] :=
  ⟨rfl, rfl⟩

theorem load_ok_invalid (v : JVal) (hv : v ≠ JVal.null)
    (hvalid : docValid v = false) :
    load (ReadResult.ok v) = (recoverOrDefault v, ⟨0, 0, 1⟩) := by
  cases v with
  | null => exact absurd rfl hv
  | jbool b => simp [load, hvalid]
  | jnum n => simp [load, hvalid]
  | jstr s => simp [load, hvalid]
  | jarr xs => simp [load, hvalid]
  | jobj fs => simp [load, hvalid]

theorem recoverOrDefault_eq_spec (v : JVal) :
    recoverOrDefault v =
      ⟨specRepairVersion (getField v "version"),
       specRepairItems (getField v "items")⟩ := by
  cases v with
  | null => rfl
  | jbool b => rfl
  | jnum n => rfl
  | jstr s => rfl
  | jarr xs => rfl
  | jobj fs => rfl

/-- C9: `load` never propagates an error. A missing document yields the
default state (version "1.0", no items) with no side effects; an
unparsable document yields the default state after exactly one backup copy
and one error notice; a document that parses but fails the structural
validation is repaired field-by-field — the version is kept when it is a
string and coerced to "1.0" otherwise, the items are kept when they are an
array and coerced to [] otherwise — rather than discarded. -/
theorem C9_load_recovery :
    load ReadResult.enoent = (defaultState, ⟨0, 0, 0⟩)
  ∧ (load ReadResult.malformed).1 = defaultState
  ∧ (load ReadResult.malformed).2.backups = 1
  ∧ (load ReadResult.malformed).2.errors = 1
  ∧ ∀ v : JVal, v ≠ JVal.null → docValid v = false →
      (load (ReadResult.ok v)).1 =
        ⟨specRepairVersion (getField v "version"),
         specRepairItems (getField v "items")⟩ := by
  refine ⟨rfl, rfl, rfl, rfl, ?_⟩
  intro v hv hvalid
  rw [load_ok_invalid v hv hvalid]
  exact recoverOrDefault_eq_spec v

/-- C9 witness: the empty JSON object (no version, no items) is repaired
to the default fields. -/
theorem C9_load_recovery_witness :
    JVal.jobj [] ≠ JVal.null
  ∧ docValid (JVal.jobj []) = false
  ∧ (load (ReadResult.ok (JVal.jobj []))).1 = ⟨JVal.jstr "1.0", JVal.jarr []⟩ := by
  refine ⟨fun h => JVal.noConfusion h, rfl, ?_⟩
  exact (C9_load_recovery).2.2.2.2 (JVal.jobj []) (fun h => JVal.noConfusion h) rfl

/-- C10: deleting an id that occurs nowhere in the tree leaves the items
unchanged, yet still schedules one persistence save and fires one change
notification — for both `deleteBookmark` and `deleteFolder`. -/
theorem C10_delete_unknown_id_saves (s : Store) (id : Nat)
    (h : hasIdL id s.items = false) :
    (deleteBookmark id s).items = s.items
  ∧ (deleteBookmark id s).saveCount = s.saveCount + 1
  ∧ (deleteBookmark id s).eventCount = s.eventCount + 1
  ∧ (deleteFolder id s).items = s.items
  ∧ (deleteFolder id s).saveCount = s.saveCount + 1
  ∧ (deleteFolder id s).eventCount = s.eventCount + 1 := by
  have hrm := removeIdL_noop id s.items h
  refine ⟨?_, rfl, rfl, ?_, rfl, rfl⟩
  · simp only [deleteBookmark, fireSave_items]
    exact hrm
  · simp only [deleteFolder, fireSave_items]
    exact hrm

/-- C10 witness: unknown id 42 on the empty store. -/
theorem C10_delete_unknown_id_saves_witness :
    hasIdL 42 emptyStore.items = false
  ∧ (deleteBookmark 42 emptyStore).items = emptyStore.items
  ∧ (deleteBookmark 42 emptyStore).saveCount = 1 :=
  ⟨rfl, (C10_delete_unknown_id_saves emptyStore 42 rfl).1,
    (C10_delete_unknown_id_saves emptyStore 42 rfl).2.1⟩

/-- C2 amended: the no-empty-numbers invariant is preserved by
`toggleBookmark`, `addBookmark` (`setMark`) and `removeBookmarkNumber`
(`clearMark`), and removing the last remaining number via
`removeBookmarkNumber` removes the Bookmark node so that no node for that
file path remains — but sticky line adjustment is excluded: the
counterexample shows `handleTextDocumentChange` can leave a Bookmark node
with an empty numbers map. -/
theorem C2_amended_no_empty_invariant :
    (∀ fp num line s, noEmptyL s.items = true →
      noEmptyL (toggleBookmark fp num line s).items = true)
  ∧ (∀ fp num line s, noEmptyL s.items = true →
      noEmptyL (addBookmark fp num line s).items = true)
  ∧ (∀ fp num s, noEmptyL s.items = true →
      noEmptyL (removeBookmarkNumber fp num s).items = true)
  ∧ (∀ fp num line id s,
      (nodeIdsL s.items).Nodup → (pathsL s.items).Nodup →
      findBL fp s.items = some (id, [(num, line)]) →
      findBL fp (removeBookmarkNumber fp num s).items = none) := by
  refine ⟨?_, ?_, ?_, ?_⟩
  · intro fp num line s h
    cases hf : findBL fp s.items with
    | none =>
        simp only [toggleBookmark, hf, fireSave_items]
        rw [noEmptyL_append]
        simp [noEmptyL, noEmptyN, h]
    | some r =>
        obtain ⟨id, ns⟩ := r
        simp only [toggleBookmark, hf]
        by_cases hl : lookupNum ns num = some line
        · rw [if_pos hl]
          by_cases hemp : (eraseNum ns num).isEmpty = true
          · rw [if_pos hemp]
            rw [fireSave_items]
            exact noEmptyL_removeIdL id s.items h
          · rw [if_neg hemp]
            rw [fireSave_items]
            exact noEmptyL_replaceL fp (eraseNum ns num) s.items
              (fun hc => hemp (by rw [hc]; rfl)) h
        · rw [if_neg hl]
          rw [fireSave_items]
          exact noEmptyL_replaceL fp _ s.items (setNum_ne_nil _ num line) h
  · intro fp num line s h
    cases hf : findBL fp s.items with
    | none =>
        simp only [addBookmark, hf, fireSave_items]
        rw [noEmptyL_append]
        simp [noEmptyL, noEmptyN, h]
    | some r =>
        obtain ⟨id, ns⟩ := r
        simp only [addBookmark, hf, fireSave_items]
        exact noEmptyL_replaceL fp _ s.items (setNum_ne_nil ns num line) h
  · intro fp num s h
    cases hf : findBL fp s.items with
    | none => simpa only [removeBookmarkNumber, hf] using h
    | some r =>
        obtain ⟨id, ns⟩ := r
        simp only [removeBookmarkNumber, hf]
        by_cases hemp : (eraseNum ns num).isEmpty = true
        · rw [if_pos hemp, fireSave_items]
          exact noEmptyL_removeIdL id s.items h
        · rw [if_neg hemp, fireSave_items]
          exact noEmptyL_replaceL fp (eraseNum ns num) s.items
            (fun hc => hemp (by rw [hc]; rfl)) h
  · intro fp num line id s hids hpaths hfind
    simp only [removeBookmarkNumber, hfind]
    have he : eraseNum [(num, line)] num = [] := by simp [eraseNum]
    rw [he]
    simp only [List.isEmpty_nil, if_true, fireSave_items]
    exact findBL_removeIdL_none fp s.items id [(num, line)] hids hpaths hfind

/-- C2 amended witness: a store holding only mark 0 at line 1 of `a`;
clearing number 0 removes the node and the path disappears. -/
theorem C2_amended_no_empty_invariant_witness :
    (nodeIdsL (singleBookmarkStore 7 "a" [(0, 1)]).items).Nodup
  ∧ (pathsL (singleBookmarkStore 7 "a" [(0, 1)]).items).Nodup
  ∧ findBL "a" (removeBookmarkNumber "a" 0 (singleBookmarkStore 7 "a" [(0, 1)])).items
      = none :=
  ⟨by decide, by decide,
    (C2_amended_no_empty_invariant).2.2.2 "a" 0 1 7 (singleBookmarkStore 7 "a" [(0, 1)])
      (by decide) (by decide) rfl⟩

end Filemarks
